import Mathlib

/-!
Shallow embedding of the bounded-polling core of this repository:

* `AirbyteResource.sync_and_poll` and `AirbyteResource.make_request`
  (src/python_modules/libraries/dagster-airbyte/dagster_airbyte/resources.py);
* `wait_for_runs_to_finish`, `poll_for_finished_run` and `poll_for_event`
  (src/python_modules/dagster/dagster/_core/test_utils.py).

Time is idealised: `time.sleep d` advances a virtual clock by `d` (a rational)
and queries take zero time, so `time.monotonic() - start` equals the sum of the
sleeps performed so far.  External collaborators (the Airbyte API, the run and
event-log storage) are parameters: a function from the query index to the data
the call site would receive.  Loops are given explicit fuel; `none` means the
fuel ran out with the loop still running, `some r` that the source loop exited
with the recorded observable trace.
-/

namespace DagsterPoll

/-- The per-attempt transition of `AirbyteResource.make_request`: either the
HTTP request succeeds with an optional JSON body (`None` for a 204 response),
or it raises a `requests.RequestException`. -/
inductive AttemptResult where
  | ok (body : Option String)
  | exc
deriving DecidableEq, Repr

/-- Observable trace of one `make_request` call: `result = some body` models a
normal return, `result = none` models the final
`raise Failure("Max retries ... exceeded")`; `attemptsMade` counts HTTP
attempts and `sleeps` records each `time.sleep(request_retry_delay)`. -/
structure RequestTrace where
  result : Option (Option String)
  attemptsMade : Nat
  sleeps : List ℚ
deriving DecidableEq, Repr

/-- The retry loop of `AirbyteResource.make_request` (resources.py lines
154-183).  `remaining` is `request_max_retries - num_retries`: on an exception
with `num_retries == request_max_retries` the loop breaks and the `Failure`
is raised; otherwise it sleeps `request_retry_delay` and retries. -/
def makeRequestGo (attempt : Nat → AttemptResult) (delay : ℚ) :
    Nat → Nat → List ℚ → RequestTrace
  | remaining, idx, slept =>
    match attempt idx with
    | .ok body => ⟨some body, idx + 1, slept⟩
    | .exc =>
      match remaining with
      | 0 => ⟨none, idx + 1, slept⟩
      | r + 1 => makeRequestGo attempt delay r (idx + 1) (slept ++ [delay])

/-- `AirbyteResource.make_request`, starting with `num_retries = 0`. -/
def make_request (attempt : Nat → AttemptResult) (maxRetries : Nat)
    (delay : ℚ) : RequestTrace :=
  makeRequestGo attempt delay maxRetries 0 []

/-- The constants of the `AirbyteState` class (resources.py lines 28-35) that
`sync_and_poll` treats as "keep polling". -/
inductive StateClass where
  | continuePoll
  | succeeded
  | errored
  | cancelled
  | unexpected
deriving DecidableEq, Repr

/-- The `if/elif` chain classifying `state` in `sync_and_poll` (resources.py
lines 350-359), in source order: membership in
`(AirbyteState.RUNNING, AirbyteState.PENDING, AirbyteState.INCOMPLETE)`
continues the loop; `SUCCEEDED` breaks; `ERROR` and `CANCELLED` raise
distinct `Failure`s; anything else raises the unexpected-state `Failure`. -/
def classifyState (s : Option String) : StateClass :=
  if s = some "running" ∨ s = some "pending" ∨ s = some "incomplete" then
    .continuePoll
  else if s = some "succeeded" then .succeeded
  else if s = some "error" then .errored
  else if s = some "cancelled" then .cancelled
  else .unexpected

/-- One `get_job_status` response: `job.get("status")` and, per attempt, the
`logs.logLines` list (resources.py lines 330-348). -/
structure JobDetails where
  status : Option String
  attempts : List (List String)
deriving DecidableEq, Repr

/-- Result of the log-forwarding block of one `sync_and_poll` iteration
(resources.py lines 333-345): the lines written to stdout this iteration and
the updated `logged_attempts` / `logged_lines` counters. -/
structure LogStepOut where
  emitted : List String
  loggedAttempts : Nat
  loggedLines : Nat
deriving DecidableEq, Repr

/-- The log-forwarding block of `sync_and_poll` (resources.py lines 333-345):
guarded by `if cur_attempt:`; when `forward_logs` it writes
`log_lines[logged_lines:]` of attempt `logged_attempts` and records the new
length; then, if a newer attempt exists, advances `logged_attempts` and resets
`logged_lines` to 0. -/
def logStep (fL : Bool) (attempts : List (List String)) (la ll : Nat) :
    LogStepOut :=
  if attempts.length = 0 then ⟨[], la, ll⟩
  else if la < attempts.length - 1 then
    ⟨if fL then (attempts.getD la []).drop ll else [], la + 1, 0⟩
  else
    ⟨if fL then (attempts.getD la []).drop ll else [], la,
      if fL then (attempts.getD la []).length else ll⟩

/-- Terminal outcome of one `sync_and_poll` call.  `cancelRequestFailed`
models the Python semantics of an exception raised by `self.cancel_job` inside
the `finally:` block: it propagates to the caller and replaces whatever
outcome was in flight. -/
inductive SyncOutcome where
  | completed
  | timedOut
  | failedError
  | failedCancelled
  | failedUnexpected (s : Option String)
  | cancelRequestFailed
deriving DecidableEq, Repr

/-- Observable trace of one `sync_and_poll` call. `numQueries` counts
`get_job_status` calls, `lastState` is the `state` variable at exit,
`cancelIssued` whether the `finally:` block called `cancel_job`, `emitted`
the log lines written to stdout, `sleeps` each `time.sleep(poll_interval)`. -/
structure SyncResult where
  outcome : SyncOutcome
  numQueries : Nat
  lastState : Option String
  cancelIssued : Bool
  emitted : List String
  sleeps : List ℚ
deriving DecidableEq, Repr

/-- The membership test of the `finally:` block (resources.py lines 363-364):
`state in (AirbyteState.SUCCEEDED, AirbyteState.ERROR, AirbyteState.CANCELLED)`. -/
def noCancelStates (s : Option String) : Bool :=
  (s == some "succeeded") || (s == some "error") || (s == some "cancelled")

/-- The `finally:` block of `sync_and_poll` (resources.py lines 360-367):
if the last state is not provider-terminal and `cancel_sync_on_run_termination`
is set, `cancel_job` is called; `cancelOk = false` means that call itself
raises (after its own retries), which in Python replaces the primary
exception or return value. -/
def syncFinish (primary : SyncOutcome) (st : Option String) (cE cOk : Bool)
    (n : Nat) (em : List String) (sl : List ℚ) : SyncResult :=
  let needCancel := cE && !(noCancelStates st)
  { outcome := if needCancel && !cOk then .cancelRequestFailed else primary
    numQueries := n
    lastState := st
    cancelIssued := needCancel
    emitted := em
    sleeps := sl }

/-- The Python guard `if poll_timeout and start + poll_timeout <
time.monotonic():` with `elapsed = time.monotonic() - start`: `poll_timeout`
must be truthy (non-`None` and non-zero) and strictly exceeded. -/
def timeoutHit (t : Option ℚ) (elapsed : ℚ) : Bool :=
  match t with
  | none => false
  | some T => decide (T ≠ 0 ∧ T < elapsed)

/-- The polling loop of `sync_and_poll` (resources.py lines 321-369).
Arguments after the fuel: query index `n`, `logged_attempts`, `logged_lines`,
the `state` variable, elapsed virtual time, emitted log lines, sleeps.
Each iteration: timeout check, `time.sleep(poll_interval)`,
`get_job_status` (modelled by `p n`), the log-forwarding block, then the
status classification; every exit runs the `finally:` block via
`syncFinish`. -/
def syncPollGo (p : Nat → JobDetails) (i : ℚ) (t : Option ℚ)
    (fL cE cOk : Bool) :
    Nat → Nat → Nat → Nat → Option String → ℚ → List String → List ℚ →
    Option SyncResult
  | 0, _, _, _, _, _, _, _ => none
  | fuel + 1, n, la, ll, st, e, em, sl =>
    if timeoutHit t e then
      some (syncFinish .timedOut st cE cOk n em sl)
    else
      match classifyState (p n).status with
      | .continuePoll =>
        syncPollGo p i t fL cE cOk fuel (n + 1)
          (logStep fL (p n).attempts la ll).loggedAttempts
          (logStep fL (p n).attempts la ll).loggedLines (p n).status (e + i)
          (em ++ (logStep fL (p n).attempts la ll).emitted) (sl ++ [i])
      | .succeeded =>
        some (syncFinish .completed (p n).status cE cOk (n + 1)
          (em ++ (logStep fL (p n).attempts la ll).emitted) (sl ++ [i]))
      | .errored =>
        some (syncFinish .failedError (p n).status cE cOk (n + 1)
          (em ++ (logStep fL (p n).attempts la ll).emitted) (sl ++ [i]))
      | .cancelled =>
        some (syncFinish .failedCancelled (p n).status cE cOk (n + 1)
          (em ++ (logStep fL (p n).attempts la ll).emitted) (sl ++ [i]))
      | .unexpected =>
        some (syncFinish (.failedUnexpected (p n).status) (p n).status cE cOk
          (n + 1)
          (em ++ (logStep fL (p n).attempts la ll).emitted) (sl ++ [i]))

/-- `AirbyteResource.sync_and_poll` from its initial state:
`logged_attempts = 0`, `logged_lines = 0`, `state = None`,
`start = time.monotonic()`. -/
def sync_and_poll (p : Nat → JobDetails) (poll_interval : ℚ)
    (poll_timeout : Option ℚ) (fL cE cOk : Bool) (fuel : Nat) :
    Option SyncResult :=
  syncPollGo p poll_interval poll_timeout fL cE cOk fuel 0 0 0 none 0 [] []

/-- Terminal outcome of the three `test_utils` pollers: a normal return
(`found`) or `raise Exception("Timed out")`. -/
inductive PollOutcome where
  | found
  | timedOut
deriving DecidableEq, Repr

/-- Observable trace of one `test_utils` poll call: outcome, number of
storage queries, and each sleep performed. -/
structure PollResult where
  outcome : PollOutcome
  numQueries : Nat
  sleeps : List ℚ
deriving DecidableEq, Repr

/-- The loop of `wait_for_runs_to_finish` (test_utils.py lines 211-221):
query the runs (`fin n` models `all(run.is_finished ...)`), return if all
finished, raise if `total_time > timeout`, else sleep `interval`, accumulate,
and double the interval. -/
def waitForRunsGo (fin : Nat → Bool) (timeout : ℚ) :
    Nat → Nat → ℚ → ℚ → List ℚ → Option PollResult
  | 0, _, _, _, _ => none
  | fuel + 1, n, total, interval, sl =>
    if fin n then some ⟨.found, n + 1, sl⟩
    else if timeout < total then some ⟨.timedOut, n + 1, sl⟩
    else waitForRunsGo fin timeout fuel (n + 1) (total + interval)
      (interval * 2) (sl ++ [interval])

/-- `wait_for_runs_to_finish` from its initial state
(`total_time = 0`, `interval = 0.1`). -/
def wait_for_runs_to_finish (fin : Nat → Bool) (timeout : ℚ) (fuel : Nat) :
    Option PollResult :=
  waitForRunsGo fin timeout fuel 0 0 (mkRat 1 10) []

/-- The loop of `poll_for_finished_run` (test_utils.py lines 243-251):
query with the terminal-status filter (`found n` models `runs` being
non-empty), return the run if found, else sleep the constant `0.01` interval,
accumulate, and raise if `total_time > timeout`. -/
def pollForFinishedRunGo (found : Nat → Bool) (timeout : ℚ) :
    Nat → Nat → ℚ → List ℚ → Option PollResult
  | 0, _, _, _ => none
  | fuel + 1, n, total, sl =>
    if found n then some ⟨.found, n + 1, sl⟩
    else
      if timeout < total + mkRat 1 100 then
        some ⟨.timedOut, n + 1, sl ++ [mkRat 1 100]⟩
      else pollForFinishedRunGo found timeout fuel (n + 1)
        (total + mkRat 1 100) (sl ++ [mkRat 1 100])

/-- `poll_for_finished_run` from its initial state (`total_time = 0`,
`interval = 0.01`). -/
def poll_for_finished_run (found : Nat → Bool) (timeout : ℚ) (fuel : Nat) :
    Option PollResult :=
  pollForFinishedRunGo found timeout fuel 0 0 []

/-- One event-log record as consumed by `poll_for_event`
(test_utils.py lines 271-276): `log_record.is_dagster_event`,
`get_dagster_event().event_type_value`, and the event `message`
(`none` models a Python `None` message). -/
structure LogRecord where
  isDagsterEvent : Bool
  eventTypeValue : String
  message : Option String
deriving DecidableEq, Repr

/-- Substring occurrence on character lists, modelling Python's
`needle in haystack` for strings. -/
def occursIn (needle : List Char) : List Char → Bool
  | [] => needle.isEmpty
  | c :: rest => needle.isPrefixOf (c :: rest) || occursIn needle rest

/-- The event filter of `poll_for_event` (test_utils.py lines 271-276):
`log_record.is_dagster_event and ... .event_type_value == event_type`. -/
def eventTypeMatches (et : String) (r : LogRecord) : Bool :=
  r.isDagsterEvent && (r.eventTypeValue == et)

/-- The Python test `if matching_message and message in matching_message:`
for one candidate event message: truthy (non-`None`, non-empty) and
containing the filter substring. -/
def messageMatchTruthy (flt : String) (msg : Option String) : Bool :=
  match msg with
  | none => false
  | some s => (!(s == "")) && occursIn flt.data s.data

/-- The success condition of one `poll_for_event` iteration
(test_utils.py lines 277-282): some event of the requested type exists and,
when a message filter is supplied, some such event's message contains it. -/
def eventFound (logs : List LogRecord) (et : String) (msg : Option String) :
    Bool :=
  if (logs.filter (eventTypeMatches et)).isEmpty then false
  else
    match msg with
    | none => true
    | some flt =>
      (logs.filter (eventTypeMatches et)).any
        (fun ev => messageMatchTruthy flt ev.message)

/-- The loop of `poll_for_event` (test_utils.py lines 268-287): sleep
`backoff` first, fetch the logs (`logs n`), return if `eventFound`, else
accumulate `total_time`, double the backoff, and raise when
`total_time > timeout`. -/
def pollForEventGo (logs : Nat → List LogRecord) (et : String)
    (msg : Option String) (timeout : ℚ) :
    Nat → Nat → ℚ → ℚ → List ℚ → Option PollResult
  | 0, _, _, _, _ => none
  | fuel + 1, n, total, backoff, sl =>
    if eventFound (logs n) et msg then some ⟨.found, n + 1, sl ++ [backoff]⟩
    else
      if timeout < total + backoff then
        some ⟨.timedOut, n + 1, sl ++ [backoff]⟩
      else pollForEventGo logs et msg timeout fuel (n + 1) (total + backoff)
        (backoff * 2) (sl ++ [backoff])

/-- `poll_for_event` from its initial state (`total_time = 0`,
`backoff = 0.01`). -/
def poll_for_event (logs : Nat → List LogRecord) (et : String)
    (msg : Option String) (timeout : ℚ) (fuel : Nat) : Option PollResult :=
  pollForEventGo logs et msg timeout fuel 0 0 (mkRat 1 100) []

/-- The doubling sleep sequence `[b, 2*b, 4*b, ...]` of length `k`, as
produced by the exponential-backoff loops. -/
def geomList (b : ℚ) : Nat → List ℚ
  | 0 => []
  | k + 1 => b :: geomList (b * 2) k

/-! ### Lemmas about `make_request` -/

theorem makeRequestGo_allFail (attempt : Nat → AttemptResult) (delay : ℚ)
    (h : ∀ i, attempt i = .exc) :
    ∀ (remaining idx : Nat) (slept : List ℚ),
      makeRequestGo attempt delay remaining idx slept =
        ⟨none, idx + remaining + 1, slept ++ List.replicate remaining delay⟩ := by
  intro remaining
  induction remaining with
  | zero =>
    intro idx slept
    rw [makeRequestGo, h idx]
    simp
  | succ r ih =>
    intro idx slept
    rw [makeRequestGo, h idx]
    rw [ih (idx + 1) (slept ++ [delay])]
    simp [List.replicate_succ]
    omega

/-- Claim C3: when every request attempt raises a transport error
(`RequestException`), `make_request` makes exactly `request_max_retries + 1`
attempts (1 initial + the configured retries), sleeping the fixed
`request_retry_delay` between consecutive attempts, and then raises the
max-retries-exceeded `Failure` (modelled by `result = none`). -/
theorem make_request_transport_errors_retried_then_exhausted
    (attempt : Nat → AttemptResult) (maxRetries : Nat) (delay : ℚ)
    (h : ∀ i, attempt i = .exc) :
    make_request attempt maxRetries delay =
      ⟨none, maxRetries + 1, List.replicate maxRetries delay⟩ := by
  unfold make_request
  rw [makeRequestGo_allFail attempt delay h maxRetries 0 []]
  simp

/-- Witness for C3 at `request_max_retries = 3`: exactly 4 attempts and three
fixed-delay sleeps. -/
theorem make_request_transport_errors_retried_then_exhausted_witness :
    make_request (fun _ => .exc) 3 (mkRat 1 4) =
      ⟨none, 4, List.replicate 3 (mkRat 1 4)⟩ :=
  make_request_transport_errors_retried_then_exhausted
    (fun _ => .exc) 3 (mkRat 1 4) (fun _ => rfl)

/-! ### Inversion lemmas for the status classifier -/

theorem classifyState_eq_continuePoll {s : Option String}
    (h : classifyState s = .continuePoll) :
    s = some "running" ∨ s = some "pending" ∨ s = some "incomplete" := by
  unfold classifyState at h
  split_ifs at h <;> simp_all

theorem classifyState_eq_succeeded {s : Option String}
    (h : classifyState s = .succeeded) : s = some "succeeded" := by
  unfold classifyState at h
  split_ifs at h <;> simp_all

theorem classifyState_eq_errored {s : Option String}
    (h : classifyState s = .errored) : s = some "error" := by
  unfold classifyState at h
  split_ifs at h <;> simp_all

theorem classifyState_eq_cancelled {s : Option String}
    (h : classifyState s = .cancelled) : s = some "cancelled" := by
  unfold classifyState at h
  split_ifs at h <;> simp_all

/-! ### The `finally:` block of `sync_and_poll` -/

theorem syncFinish_spec (primary : SyncOutcome) (st : Option String)
    (cE cOk : Bool) (n : Nat) (em : List String) (sl : List ℚ)
    (hp : primary ≠ .cancelRequestFailed)
    (hc : primary = .completed → st = some "succeeded")
    (hf : st = some "failed" → primary = .failedUnexpected (some "failed")) :
    (syncFinish primary st cE cOk n em sl).cancelIssued =
        (cE && !(noCancelStates st)) ∧
    ((syncFinish primary st cE cOk n em sl).outcome = .completed →
      st = some "succeeded" ∧
      (syncFinish primary st cE cOk n em sl).cancelIssued = false) ∧
    (cOk = true →
      (syncFinish primary st cE cOk n em sl).outcome ≠
        .cancelRequestFailed) ∧
    (cOk = false →
      (syncFinish primary st cE cOk n em sl).cancelIssued = true →
      (syncFinish primary st cE cOk n em sl).outcome =
        .cancelRequestFailed) ∧
    (cOk = true → st = some "failed" →
      (syncFinish primary st cE cOk n em sl).outcome =
        .failedUnexpected (some "failed")) := by
  have ho : (syncFinish primary st cE cOk n em sl).outcome =
      (if (cE && !(noCancelStates st)) && !cOk then
        SyncOutcome.cancelRequestFailed else primary) := rfl
  have hci : (syncFinish primary st cE cOk n em sl).cancelIssued =
      (cE && !(noCancelStates st)) := rfl
  refine ⟨hci, ?_, ?_, ?_, ?_⟩
  · intro hco
    rw [ho] at hco
    split at hco
    · exact absurd hco (by simp)
    · have hst2 := hc hco
      refine ⟨hst2, ?_⟩
      rw [hci, hst2]
      simp [noCancelStates]
  · intro hOk
    rw [ho, hOk]
    simpa using hp
  · intro hOk hci2
    rw [hci] at hci2
    rw [ho, hOk, hci2]
    simp
  · intro hOk hst2
    rw [ho, hOk]
    simpa using hf hst2

/-- Master induction over the `sync_and_poll` loop: the relation between the
exit outcome, the last observed state and the `finally:` cancellation, for
any provider and any reachable loop state (the `state` variable is `None` or
a continue-class state at the top of each iteration). -/
theorem syncPollGo_exit_invariants (p : Nat → JobDetails) (i : ℚ)
    (t : Option ℚ) (fL cE cOk : Bool) :
    ∀ (fuel n la ll : Nat) (st : Option String) (e : ℚ) (em : List String)
      (sl : List ℚ) (r : SyncResult),
      (st = none ∨ classifyState st = .continuePoll) →
      syncPollGo p i t fL cE cOk fuel n la ll st e em sl = some r →
      r.cancelIssued = (cE && !(noCancelStates r.lastState)) ∧
      (r.outcome = .completed →
        r.lastState = some "succeeded" ∧ r.cancelIssued = false) ∧
      (cOk = true → r.outcome ≠ .cancelRequestFailed) ∧
      (cOk = false → r.cancelIssued = true →
        r.outcome = .cancelRequestFailed) ∧
      (cOk = true → r.lastState = some "failed" →
        r.outcome = .failedUnexpected (some "failed")) := by
  intro fuel
  induction fuel with
  | zero =>
    intro n la ll st e em sl r _ hr
    simp [syncPollGo] at hr
  | succ fuel ih =>
    intro n la ll st e em sl r hst hr
    rw [syncPollGo] at hr
    split at hr
    · -- timeout exit
      have hr2 : syncFinish .timedOut st cE cOk n em sl = r :=
        Option.some.inj hr
      subst hr2
      exact syncFinish_spec .timedOut st cE cOk n em sl
        (by simp)
        (by intro h; simp at h)
        (by
          intro h
          subst h
          rcases hst with h1 | h1
          · simp at h1
          · exact absurd h1 (by decide))
    · -- after the sleep and query, split on the classification
      split at hr
      case _ heq =>
        exact ih (n + 1) _ _ (p n).status (e + i) _ _ r (Or.inr heq) hr
      case _ heq =>
        have hsucc : (p n).status = some "succeeded" :=
          classifyState_eq_succeeded heq
        have hr2 := Option.some.inj hr
        subst hr2
        exact syncFinish_spec .completed (p n).status cE cOk (n + 1) _ _
          (by simp)
          (fun _ => hsucc)
          (by intro h; rw [h] at hsucc; simp at hsucc)
      case _ heq =>
        have herr : (p n).status = some "error" :=
          classifyState_eq_errored heq
        have hr2 := Option.some.inj hr
        subst hr2
        exact syncFinish_spec .failedError (p n).status cE cOk (n + 1) _ _
          (by simp)
          (by intro h; simp at h)
          (by intro h; rw [h] at herr; simp at herr)
      case _ heq =>
        have hcanc : (p n).status = some "cancelled" :=
          classifyState_eq_cancelled heq
        have hr2 := Option.some.inj hr
        subst hr2
        exact syncFinish_spec .failedCancelled (p n).status cE cOk (n + 1) _ _
          (by simp)
          (by intro h; simp at h)
          (by intro h; rw [h] at hcanc; simp at hcanc)
      case _ =>
        have hr2 := Option.some.inj hr
        subst hr2
        exact syncFinish_spec (.failedUnexpected (p n).status)
          (p n).status cE cOk (n + 1) _ _
          (by simp)
          (by intro h; simp at h)
          (by intro h; rw [h])

/-- Claim C1: `sync_and_poll` classifies each fetched status: any of
`running`, `pending`, `incomplete` continues the loop; `succeeded` terminates
with the completed result; `error` and `cancelled` each terminate with a
`Failure`; any other status terminates with the distinct unexpected-state
`Failure` and is not retried.  For the status sequence
`["running", "running", "succeeded"]` the poller returns completed after
exactly 3 status queries. -/
theorem sync_and_poll_status_classification :
    classifyState (some "running") = .continuePoll ∧
    classifyState (some "pending") = .continuePoll ∧
    classifyState (some "incomplete") = .continuePoll ∧
    classifyState (some "succeeded") = .succeeded ∧
    classifyState (some "error") = .errored ∧
    classifyState (some "cancelled") = .cancelled ∧
    (∀ s : Option String,
      s ∉ ([some "running", some "pending", some "incomplete",
            some "succeeded", some "error", some "cancelled"] :
        List (Option String)) →
      classifyState s = .unexpected) ∧
    sync_and_poll
      (fun n => ([⟨some "running", []⟩, ⟨some "running", []⟩,
        ⟨some "succeeded", []⟩] : List JobDetails).getD n ⟨none, []⟩)
      1 none true true true 10 =
      some ⟨.completed, 3, some "succeeded", false, [], [1, 1, 1]⟩ ∧
    sync_and_poll (fun _ => ⟨some "error", []⟩) 1 none true true true 3 =
      some ⟨.failedError, 1, some "error", false, [], [1]⟩ ∧
    sync_and_poll (fun _ => ⟨some "cancelled", []⟩) 1 none true true true 3 =
      some ⟨.failedCancelled, 1, some "cancelled", false, [], [1]⟩ ∧
    sync_and_poll (fun _ => ⟨some "mystery", []⟩) 1 none true true true 3 =
      some ⟨.failedUnexpected (some "mystery"), 1, some "mystery",
        true, [], [1]⟩ := by
  refine ⟨by decide, by decide, by decide, by decide, by decide, by decide,
    ?_, by decide, by decide, by decide, by decide⟩
  intro s hs
  unfold classifyState
  split_ifs with h1 h2 h3 h4 <;> simp_all

/-- Witness for C1: the unexpected-state branch at a concrete status outside
the recognized set. -/
theorem sync_and_poll_status_classification_witness :
    classifyState (some "weird") = .unexpected :=
  sync_and_poll_status_classification.2.2.2.2.2.2.1 (some "weird") (by decide)

/-- Claim C4: whenever `sync_and_poll` exits (with `cancel_sync_on_run_termination`
enabled), the `finally:` block issues a cancellation request iff the last
observed status is not in the provider-terminal set
{succeeded, error, cancelled}; in particular a completed (succeeded) exit
never issues a cancellation. -/
theorem sync_and_poll_cancellation_iff_not_terminal
    (p : Nat → JobDetails) (i : ℚ) (t : Option ℚ) (fL cOk : Bool)
    (fuel : Nat) (r : SyncResult)
    (hr : sync_and_poll p i t fL true cOk fuel = some r) :
    (r.cancelIssued = true ↔
      ¬(r.lastState = some "succeeded" ∨ r.lastState = some "error" ∨
        r.lastState = some "cancelled")) ∧
    (r.outcome = .completed → r.cancelIssued = false) := by
  obtain ⟨h1, h2, _, _, _⟩ :=
    syncPollGo_exit_invariants p i t fL true cOk fuel 0 0 0 none 0 [] [] r
      (Or.inl rfl) hr
  refine ⟨?_, fun h => (h2 h).2⟩
  rw [h1]
  simp [noCancelStates, not_or, and_assoc]

/-- Witness for C4: a successful sync exits completed and without issuing a
cancellation. -/
theorem sync_and_poll_cancellation_iff_not_terminal_witness :
    ((⟨.completed, 1, some "succeeded", false, [], [1]⟩ :
        SyncResult).cancelIssued = true ↔
      ¬((⟨.completed, 1, some "succeeded", false, [], [1]⟩ :
          SyncResult).lastState = some "succeeded" ∨
        (⟨.completed, 1, some "succeeded", false, [], [1]⟩ :
          SyncResult).lastState = some "error" ∨
        (⟨.completed, 1, some "succeeded", false, [], [1]⟩ :
          SyncResult).lastState = some "cancelled")) ∧
    ((⟨.completed, 1, some "succeeded", false, [], [1]⟩ :
        SyncResult).outcome = .completed →
      (⟨.completed, 1, some "succeeded", false, [], [1]⟩ :
        SyncResult).cancelIssued = false) :=
  sync_and_poll_cancellation_iff_not_terminal
    (fun _ => ⟨some "succeeded", []⟩) 1 none true true 2 _ (by decide)

/-- Claim C5 counterexample: with the provider returning the unrecognized
status `"failed"` and the cancellation request itself failing, the caller
observes the cancellation failure (the exception raised inside `finally:`
propagates), not the already-determined primary unexpected-state outcome —
so the cancellation failure is escalated, not swallowed. -/
theorem sync_and_poll_cancel_failure_not_swallowed_cex :
    sync_and_poll (fun _ => ⟨some "failed", []⟩) 1 none true true false 3 =
      some ⟨.cancelRequestFailed, 1, some "failed", true, [], [1]⟩ ∧
    (SyncOutcome.cancelRequestFailed ≠
      SyncOutcome.failedUnexpected (some "failed")) :=
  ⟨by decide, by decide⟩

/-- Claim C5 (amended): the exit-path cancellation is not fire-and-forget:
when the cancellation request itself fails (raises out of `cancel_job`), that
failure propagates to the caller and replaces the primary outcome; when the
cancellation request succeeds (or none is issued) the caller observes the
primary outcome. -/
theorem sync_and_poll_cancel_failure_escalates :
    (∀ (p : Nat → JobDetails) (i : ℚ) (t : Option ℚ) (fL : Bool)
      (fuel : Nat) (r : SyncResult),
      sync_and_poll p i t fL true false fuel = some r →
      r.cancelIssued = true → r.outcome = .cancelRequestFailed) ∧
    (∀ (p : Nat → JobDetails) (i : ℚ) (t : Option ℚ) (fL cE : Bool)
      (fuel : Nat) (r : SyncResult),
      sync_and_poll p i t fL cE true fuel = some r →
      r.outcome ≠ .cancelRequestFailed) := by
  constructor
  · intro p i t fL fuel r hr hc
    obtain ⟨_, _, _, h4, _⟩ := syncPollGo_exit_invariants p i t fL true false
      fuel 0 0 0 none 0 [] [] r (Or.inl rfl) hr
    exact h4 rfl hc
  · intro p i t fL cE fuel r hr
    obtain ⟨_, _, h3, _, _⟩ := syncPollGo_exit_invariants p i t fL cE true
      fuel 0 0 0 none 0 [] [] r (Or.inl rfl) hr
    exact h3 rfl

/-- Witness for the amended C5: the concrete failing-cancellation run. -/
theorem sync_and_poll_cancel_failure_escalates_witness :
    SyncResult.outcome
      ⟨.cancelRequestFailed, 1, some "failed", true, [], [1]⟩ =
      .cancelRequestFailed :=
  sync_and_poll_cancel_failure_escalates.1 (fun _ => ⟨some "failed", []⟩) 1
    none true 3 _ (by decide) (by decide)

/-- Claim C6: for the status sequence `["running", "error"]`,
`sync_and_poll` signals the job-failed `Failure` after exactly 2 status
queries and issues no cancellation request, the job being already terminal
at the provider. -/
theorem sync_and_poll_running_error_no_cancel :
    sync_and_poll
      (fun n => ([⟨some "running", []⟩, ⟨some "error", []⟩] :
        List JobDetails).getD n ⟨none, []⟩) 1 none true true true 5 =
      some ⟨.failedError, 2, some "error", false, [], [1, 1]⟩ := by
  decide

/-- Claim C10: the provider status string `"failed"` (`AirbyteState.FAILED`)
is not matched by any recognized branch of `sync_and_poll`: every execution
whose last fetched status is `"failed"` exits via the unexpected-state
`Failure`, and since `"failed"` is not in the no-cancel set
{succeeded, error, cancelled}, a cancellation request is issued on the exit
path when cancellation on termination is enabled. -/
theorem sync_and_poll_failed_is_unexpected_and_cancelled :
    classifyState (some "failed") = .unexpected ∧
    (∀ (p : Nat → JobDetails) (i : ℚ) (t : Option ℚ) (fL : Bool)
      (fuel : Nat) (r : SyncResult),
      sync_and_poll p i t fL true true fuel = some r →
      r.lastState = some "failed" →
      r.outcome = .failedUnexpected (some "failed") ∧
        r.cancelIssued = true) ∧
    sync_and_poll (fun _ => ⟨some "failed", []⟩) 1 none true true true 3 =
      some ⟨.failedUnexpected (some "failed"), 1, some "failed", true, [],
        [1]⟩ := by
  refine ⟨by decide, ?_, by decide⟩
  intro p i t fL fuel r hr hlast
  obtain ⟨h1, _, _, _, h5⟩ :=
    syncPollGo_exit_invariants p i t fL true true fuel 0 0 0 none 0 [] [] r
      (Or.inl rfl) hr
  refine ⟨h5 rfl hlast, ?_⟩
  rw [h1, hlast]
  decide

/-- Witness for C10: the constant-`"failed"` run. -/
theorem sync_and_poll_failed_is_unexpected_and_cancelled_witness :
    SyncResult.outcome
      ⟨.failedUnexpected (some "failed"), 1, some "failed", true, [], [1]⟩ =
      .failedUnexpected (some "failed") ∧
    SyncResult.cancelIssued
      ⟨.failedUnexpected (some "failed"), 1, some "failed", true, [], [1]⟩ =
      true :=
  sync_and_poll_failed_is_unexpected_and_cancelled.2.1
    (fun _ => ⟨some "failed", []⟩) 1 none true 3 _ (by decide) (by decide)

/-- Claim C9: within one attempt the log-forwarding block writes exactly the
lines past the consumed-line offset, the offset is non-decreasing while the
attempt does not advance (provided the remote log list did not shrink), the
offset is reset to 0 exactly when the loop advances to a new attempt, and
re-running the block on an unchanged attempt emits nothing (each line is
forwarded at most once). -/
theorem logStep_offset_monotone_reset (attempts : List (List String))
    (la ll : Nat) :
    (attempts.length ≠ 0 →
      (logStep true attempts la ll).emitted = (attempts.getD la []).drop ll) ∧
    (∀ fL : Bool, (logStep fL attempts la ll).loggedAttempts = la + 1 ↔
      (attempts.length ≠ 0 ∧ la < attempts.length - 1)) ∧
    (∀ fL : Bool, (logStep fL attempts la ll).loggedAttempts ≠ la →
      (logStep fL attempts la ll).loggedAttempts = la + 1 ∧
      (logStep fL attempts la ll).loggedLines = 0) ∧
    (attempts.length ≠ 0 → ¬la < attempts.length - 1 →
      ll ≤ (attempts.getD la []).length →
      ll ≤ (logStep true attempts la ll).loggedLines) ∧
    (attempts.length ≠ 0 → ¬la < attempts.length - 1 →
      (logStep true attempts (logStep true attempts la ll).loggedAttempts
        (logStep true attempts la ll).loggedLines).emitted = []) := by
  refine ⟨?_, ?_, ?_, ?_, ?_⟩
  · intro h
    unfold logStep
    split_ifs <;> simp_all
  · intro fL
    unfold logStep
    split_ifs with h1 h2 <;> simp_all
  · intro fL h
    unfold logStep at h ⊢
    split_ifs at h ⊢ with h1 h2 <;> simp_all
  · intro h1 h2 h3
    unfold logStep
    split_ifs <;> simp_all
  · intro h1 h2
    unfold logStep
    split_ifs <;> simp_all [List.drop_length]

/-- Witness for C9: one attempt with two log lines and offset 1 — only the
second line is emitted and the offset does not decrease. -/
theorem logStep_offset_monotone_reset_witness :
    (logStep true [["a", "b"]] 0 1).emitted =
      (([["a", "b"]] : List (List String)).getD 0 []).drop 1 ∧
    1 ≤ (logStep true [["a", "b"]] 0 1).loggedLines :=
  ⟨(logStep_offset_monotone_reset [["a", "b"]] 0 1).1 (by decide),
    (logStep_offset_monotone_reset [["a", "b"]] 0 1).2.2.2.1 (by decide)
      (by decide) (by decide)⟩

/-! ### Lemmas about `poll_for_event` -/

theorem eventFound_none_iff (logs : List LogRecord) (et : String) :
    eventFound logs et none = true ↔
      ∃ r ∈ logs, eventTypeMatches et r = true := by
  unfold eventFound
  split_ifs with h
  · rw [List.isEmpty_iff, List.filter_eq_nil_iff] at h
    refine iff_of_false (by simp) ?_
    rintro ⟨r, hr, hm⟩
    exact h r hr hm
  · rw [List.isEmpty_iff, List.filter_eq_nil_iff] at h
    push_neg at h
    obtain ⟨a, ha, hp⟩ := h
    exact iff_of_true rfl ⟨a, ha, hp⟩

theorem messageMatchTruthy_eq_true {flt : String} {msg : Option String}
    (h : messageMatchTruthy flt msg = true) :
    ∃ s, msg = some s ∧ occursIn flt.data s.data = true := by
  unfold messageMatchTruthy at h
  rcases msg with _ | s
  · simp at h
  · simp only [Bool.and_eq_true] at h
    exact ⟨s, rfl, h.2⟩

theorem eventFound_some_occurs (logs : List LogRecord) (et flt : String)
    (h : eventFound logs et (some flt) = true) :
    ∃ r ∈ logs, eventTypeMatches et r = true ∧
      ∃ s, r.message = some s ∧ occursIn flt.data s.data = true := by
  unfold eventFound at h
  split_ifs at h with hm
  simp only [List.any_eq_true, List.mem_filter] at h
  obtain ⟨ev, ⟨hev, hty⟩, hp⟩ := h
  exact ⟨ev, hev, hty, messageMatchTruthy_eq_true hp⟩

theorem pollForEventGo_neverFound (logs : Nat → List LogRecord) (et : String)
    (msg : Option String) (timeout : ℚ)
    (h : ∀ n, eventFound (logs n) et msg = false) :
    ∀ (fuel n : Nat) (total backoff : ℚ) (sl : List ℚ) (r : PollResult),
      pollForEventGo logs et msg timeout fuel n total backoff sl = some r →
      r.outcome = .timedOut := by
  intro fuel
  induction fuel with
  | zero =>
    intro n total backoff sl r hr
    simp [pollForEventGo] at hr
  | succ fuel ih =>
    intro n total backoff sl r hr
    rw [pollForEventGo, if_neg (by simp [h n])] at hr
    split at hr
    · have hr2 := Option.some.inj hr
      subst hr2
      rfl
    · exact ih _ _ _ _ _ hr

/-- Claim C8: in `poll_for_event`, with a message filter supplied alongside
the event-type filter, the poll succeeds only if the filter substring occurs
in the message text of some event of that type; with no message filter, any
event of the type suffices.  For a log holding one `STEP_START` record with
message "foo started", polling for `("STEP_START", message=None)` returns on
the first iteration, while polling for `("STEP_START", message="bar")` never
returns successfully — every exit is the timeout. -/
theorem poll_for_event_message_filter :
    (∀ (logs : List LogRecord) (et : String),
      eventFound logs et none = true ↔
        ∃ r ∈ logs, eventTypeMatches et r = true) ∧
    (∀ (logs : List LogRecord) (et flt : String),
      eventFound logs et (some flt) = true →
      ∃ r ∈ logs, eventTypeMatches et r = true ∧
        ∃ s, r.message = some s ∧ occursIn flt.data s.data = true) ∧
    poll_for_event (fun _ => [⟨true, "STEP_START", some "foo started"⟩])
      "STEP_START" none 30 1 =
      some ⟨.found, 1, [mkRat 1 100]⟩ ∧
    (∀ (timeout : ℚ) (fuel : Nat) (r : PollResult),
      poll_for_event (fun _ => [⟨true, "STEP_START", some "foo started"⟩])
        "STEP_START" (some "bar") timeout fuel = some r →
      r.outcome = .timedOut) := by
  refine ⟨eventFound_none_iff, eventFound_some_occurs, by decide, ?_⟩
  intro timeout fuel r hr
  exact pollForEventGo_neverFound _ _ _ timeout (fun n => by decide) fuel 0 0
    (mkRat 1 100) [] r hr

/-- Witness for C8: the substring facts for the matching record and a
concrete timed-out run of the `"bar"`-filtered poll. -/
theorem poll_for_event_message_filter_witness :
    (∃ r ∈ [(⟨true, "STEP_START", some "foo started"⟩ : LogRecord)],
      eventTypeMatches "STEP_START" r = true ∧
      ∃ s, r.message = some s ∧ occursIn "foo".data s.data = true) ∧
    PollResult.outcome ⟨.timedOut, 2, [mkRat 1 100, mkRat 2 100]⟩ =
      .timedOut :=
  ⟨poll_for_event_message_filter.2.1
      [⟨true, "STEP_START", some "foo started"⟩] "STEP_START" "foo"
      (by decide),
    poll_for_event_message_filter.2.2.2 (mkRat 1 100) 2 _
      (by with_unfolding_all decide)⟩

/-! ### The sleep sequences of the four poll loops -/

theorem geomList_cons_chain_double : ∀ (k : Nat) (b : ℚ),
    List.Chain' (fun a c => c = a * 2) (b :: geomList (b * 2) k) := by
  intro k
  induction k with
  | zero =>
    intro b
    simp [geomList]
  | succ k ih =>
    intro b
    rw [geomList, List.chain'_cons]
    exact ⟨rfl, ih (b * 2)⟩

theorem geomList_chain_double (k : Nat) (b : ℚ) :
    List.Chain' (fun a c => c = a * 2) (geomList b k) := by
  cases k with
  | zero => simp [geomList]
  | succ k =>
    rw [geomList]
    exact geomList_cons_chain_double k b

theorem geomList_cons_chain_le : ∀ (k : Nat) (b : ℚ), 0 ≤ b →
    List.Chain' (· ≤ ·) (b :: geomList (b * 2) k) := by
  intro k
  induction k with
  | zero =>
    intro b _
    simp [geomList]
  | succ k ih =>
    intro b hb
    rw [geomList, List.chain'_cons]
    exact ⟨by linarith, ih (b * 2) (by linarith)⟩

theorem geomList_chain_le (k : Nat) (b : ℚ) (hb : 0 ≤ b) :
    List.Chain' (· ≤ ·) (geomList b k) := by
  cases k with
  | zero => simp [geomList]
  | succ k =>
    rw [geomList]
    exact geomList_cons_chain_le k b hb

theorem geomList_nonneg : ∀ (k : Nat) (b : ℚ), 0 ≤ b →
    ∀ x ∈ geomList b k, 0 ≤ x := by
  intro k
  induction k with
  | zero =>
    intro b _ x hx
    simp [geomList] at hx
  | succ k ih =>
    intro b hb x hx
    rw [geomList] at hx
    rcases List.mem_cons.mp hx with h | h
    · exact h ▸ hb
    · exact ih (b * 2) (by linarith) x h

theorem scanl_add_head (a : ℚ) (l : List ℚ) :
    (List.scanl (· + ·) a l).head? = some a := by
  cases l <;> simp [List.scanl_nil, List.scanl_cons]

theorem scanl_add_chain_le : ∀ (l : List ℚ) (a : ℚ),
    (∀ x ∈ l, 0 ≤ x) → List.Chain' (· ≤ ·) (List.scanl (· + ·) a l) := by
  intro l
  induction l with
  | nil =>
    intro a _
    simp [List.scanl_nil]
  | cons x xs ih =>
    intro a h
    rw [List.scanl_cons, List.singleton_append, List.chain'_cons']
    refine ⟨?_, ih (a + x) (fun z hz => h z (List.mem_cons_of_mem _ hz))⟩
    intro y hy
    rw [scanl_add_head] at hy
    simp only [Option.mem_def, Option.some.injEq] at hy
    have hx0 : 0 ≤ x := h x (List.mem_cons_self _ _)
    rw [← hy]
    linarith

theorem replicate_chain_le : ∀ (k : Nat) (c : ℚ),
    List.Chain' (· ≤ ·) (List.replicate k c) := by
  intro k
  induction k with
  | zero =>
    intro c
    simp
  | succ k ih =>
    intro c
    rw [List.replicate_succ, List.chain'_cons']
    refine ⟨?_, ih c⟩
    intro y hy
    cases k with
    | zero => simp at hy
    | succ k =>
      rw [List.replicate_succ] at hy
      simp only [List.head?_cons, Option.mem_def, Option.some.injEq] at hy
      rw [← hy]

theorem pollForEventGo_sleeps_geom (logs : Nat → List LogRecord)
    (et : String) (msg : Option String) (T : ℚ) :
    ∀ (fuel n : Nat) (total b : ℚ) (sl : List ℚ) (r : PollResult),
      pollForEventGo logs et msg T fuel n total b sl = some r →
      ∃ k, r.sleeps = sl ++ geomList b k := by
  intro fuel
  induction fuel with
  | zero =>
    intro n total b sl r hr
    simp [pollForEventGo] at hr
  | succ fuel ih =>
    intro n total b sl r hr
    rw [pollForEventGo] at hr
    split at hr
    · have hr2 := Option.some.inj hr
      subst hr2
      exact ⟨1, by simp [geomList]⟩
    · split at hr
      · have hr2 := Option.some.inj hr
        subst hr2
        exact ⟨1, by simp [geomList]⟩
      · obtain ⟨k, hk⟩ := ih _ _ _ _ _ hr
        refine ⟨k + 1, ?_⟩
        rw [hk, geomList]
        simp

theorem waitForRunsGo_sleeps_geom (fin : Nat → Bool) (T : ℚ) :
    ∀ (fuel n : Nat) (total interval : ℚ) (sl : List ℚ) (r : PollResult),
      waitForRunsGo fin T fuel n total interval sl = some r →
      ∃ k, r.sleeps = sl ++ geomList interval k := by
  intro fuel
  induction fuel with
  | zero =>
    intro n total interval sl r hr
    simp [waitForRunsGo] at hr
  | succ fuel ih =>
    intro n total interval sl r hr
    rw [waitForRunsGo] at hr
    split at hr
    · have hr2 := Option.some.inj hr
      subst hr2
      exact ⟨0, by simp [geomList]⟩
    · split at hr
      · have hr2 := Option.some.inj hr
        subst hr2
        exact ⟨0, by simp [geomList]⟩
      · obtain ⟨k, hk⟩ := ih _ _ _ _ _ hr
        refine ⟨k + 1, ?_⟩
        rw [hk, geomList]
        simp

theorem pollForFinishedRunGo_sleeps_const (found : Nat → Bool) (T : ℚ) :
    ∀ (fuel n : Nat) (total : ℚ) (sl : List ℚ) (r : PollResult),
      pollForFinishedRunGo found T fuel n total sl = some r →
      ∃ k, r.sleeps = sl ++ List.replicate k (mkRat 1 100) := by
  intro fuel
  induction fuel with
  | zero =>
    intro n total sl r hr
    simp [pollForFinishedRunGo] at hr
  | succ fuel ih =>
    intro n total sl r hr
    rw [pollForFinishedRunGo] at hr
    split at hr
    · have hr2 := Option.some.inj hr
      subst hr2
      exact ⟨0, by simp⟩
    · split at hr
      · have hr2 := Option.some.inj hr
        subst hr2
        exact ⟨1, by simp⟩
      · obtain ⟨k, hk⟩ := ih _ _ _ _ hr
        refine ⟨k + 1, ?_⟩
        rw [hk, List.replicate_succ]
        simp

theorem syncPollGo_sleeps_const (p : Nat → JobDetails) (i : ℚ)
    (t : Option ℚ) (fL cE cOk : Bool) :
    ∀ (fuel n la ll : Nat) (st : Option String) (e : ℚ) (em : List String)
      (sl : List ℚ) (r : SyncResult),
      syncPollGo p i t fL cE cOk fuel n la ll st e em sl = some r →
      ∃ k, r.sleeps = sl ++ List.replicate k i := by
  intro fuel
  induction fuel with
  | zero =>
    intro n la ll st e em sl r hr
    simp [syncPollGo] at hr
  | succ fuel ih =>
    intro n la ll st e em sl r hr
    rw [syncPollGo] at hr
    split at hr
    · have hr2 := Option.some.inj hr
      subst hr2
      exact ⟨0, by simp [syncFinish]⟩
    · split at hr
      case _ =>
        obtain ⟨k, hk⟩ := ih _ _ _ _ _ _ _ _ hr
        refine ⟨k + 1, ?_⟩
        rw [hk, List.replicate_succ]
        simp
      all_goals
        have hr2 := Option.some.inj hr
        subst hr2
        exact ⟨1, by simp [syncFinish]⟩

/-- Claim C7: in every poll operation the sleep-interval sequence is
non-decreasing across iterations; the exponential variants
(`poll_for_event`, `wait_for_runs_to_finish`) multiply the interval by 2
after each unsuccessful poll, producing 0.01, 0.02, 0.04, 0.08, ... for seed
0.01; the constant-interval variants (`poll_for_finished_run`,
`sync_and_poll`) repeat a fixed interval; and the accumulated elapsed-time
counter (the running sum of the sleeps) is monotonically non-decreasing. -/
theorem poll_backoff_monotone :
    (∀ (logs : Nat → List LogRecord) (et : String) (msg : Option String)
      (T : ℚ) (fuel : Nat) (r : PollResult),
      poll_for_event logs et msg T fuel = some r →
      List.Chain' (fun a c => c = a * 2) r.sleeps ∧
      List.Chain' (· ≤ ·) r.sleeps ∧
      List.Chain' (· ≤ ·) (List.scanl (· + ·) 0 r.sleeps)) ∧
    (∀ (fin : Nat → Bool) (T : ℚ) (fuel : Nat) (r : PollResult),
      wait_for_runs_to_finish fin T fuel = some r →
      List.Chain' (fun a c => c = a * 2) r.sleeps ∧
      List.Chain' (· ≤ ·) r.sleeps ∧
      List.Chain' (· ≤ ·) (List.scanl (· + ·) 0 r.sleeps)) ∧
    (∀ (found : Nat → Bool) (T : ℚ) (fuel : Nat) (r : PollResult),
      poll_for_finished_run found T fuel = some r →
      (∃ k, r.sleeps = List.replicate k (mkRat 1 100)) ∧
      List.Chain' (· ≤ ·) r.sleeps ∧
      List.Chain' (· ≤ ·) (List.scanl (· + ·) 0 r.sleeps)) ∧
    (∀ (p : Nat → JobDetails) (i : ℚ) (t : Option ℚ) (fL cE cOk : Bool)
      (fuel : Nat) (r : SyncResult), 0 ≤ i →
      sync_and_poll p i t fL cE cOk fuel = some r →
      (∃ k, r.sleeps = List.replicate k i) ∧
      List.Chain' (· ≤ ·) r.sleeps ∧
      List.Chain' (· ≤ ·) (List.scanl (· + ·) 0 r.sleeps)) ∧
    poll_for_event (fun _ => []) "E" none (mkRat 1 10) 4 =
      some ⟨.timedOut, 4, [mkRat 1 100, mkRat 2 100, mkRat 4 100,
        mkRat 8 100]⟩ := by
  have h100 : (0 : ℚ) ≤ mkRat 1 100 := by norm_num [Rat.mkRat_eq_div]
  have h10 : (0 : ℚ) ≤ mkRat 1 10 := by norm_num [Rat.mkRat_eq_div]
  refine ⟨?_, ?_, ?_, ?_, ?_⟩
  · intro logs et msg T fuel r hr
    obtain ⟨k, hk⟩ := pollForEventGo_sleeps_geom logs et msg T fuel 0 0
      (mkRat 1 100) [] r hr
    rw [List.nil_append] at hk
    rw [hk]
    exact ⟨geomList_chain_double k _, geomList_chain_le k _ h100,
      scanl_add_chain_le _ 0 (geomList_nonneg k _ h100)⟩
  · intro fin T fuel r hr
    obtain ⟨k, hk⟩ := waitForRunsGo_sleeps_geom fin T fuel 0 0
      (mkRat 1 10) [] r hr
    rw [List.nil_append] at hk
    rw [hk]
    exact ⟨geomList_chain_double k _, geomList_chain_le k _ h10,
      scanl_add_chain_le _ 0 (geomList_nonneg k _ h10)⟩
  · intro found T fuel r hr
    obtain ⟨k, hk⟩ := pollForFinishedRunGo_sleeps_const found T fuel 0 0 [] r
      hr
    rw [List.nil_append] at hk
    rw [hk]
    refine ⟨⟨k, rfl⟩, replicate_chain_le k _, scanl_add_chain_le _ 0 ?_⟩
    intro x hx
    rw [List.eq_of_mem_replicate hx]
    exact h100
  · intro p i t fL cE cOk fuel r hi hr
    obtain ⟨k, hk⟩ := syncPollGo_sleeps_const p i t fL cE cOk fuel 0 0 0 none
      0 [] [] r hr
    rw [List.nil_append] at hk
    rw [hk]
    refine ⟨⟨k, rfl⟩, replicate_chain_le k _, scanl_add_chain_le _ 0 ?_⟩
    intro x hx
    rw [List.eq_of_mem_replicate hx]
    exact hi
  · with_unfolding_all decide

/-- Witness for C7: the doubling chain on the concrete
0.01, 0.02, 0.04, 0.08 sleep sequence. -/
theorem poll_backoff_monotone_witness :
    List.Chain' (fun a c => c = a * 2)
      (PollResult.sleeps ⟨.timedOut, 4, [mkRat 1 100, mkRat 2 100,
        mkRat 4 100, mkRat 8 100]⟩) :=
  (poll_backoff_monotone.1 (fun _ => []) "E" none (mkRat 1 10) 4 _
    (by with_unfolding_all decide)).1

/-! ### Termination of the poll loops under a never-terminal provider -/

theorem exists_pow_gt (c : ℚ) : ∃ m : Nat, c < 2 ^ (m + 1) - 1 := by
  obtain ⟨m, hm⟩ := exists_nat_gt c
  refine ⟨m, ?_⟩
  have h1 : (m : ℚ) < 2 ^ m := by
    exact_mod_cast Nat.lt_two_pow m
  have h2 : (1 : ℚ) ≤ 2 ^ m := by
    exact_mod_cast Nat.one_le_pow m 2 (by norm_num)
  have h3 : (2 : ℚ) ^ (m + 1) = 2 ^ m * 2 := by ring
  linarith

theorem pollForEventGo_times_out (logs : Nat → List LogRecord) (et : String)
    (msg : Option String) (T : ℚ)
    (hnf : ∀ n, eventFound (logs n) et msg = false) :
    ∀ (fuel n : Nat) (total b : ℚ) (sl : List ℚ),
      0 < b → total ≤ T → sl.sum = total →
      T < total + b * (2 ^ (fuel + 1) - 1) →
      ∃ r, pollForEventGo logs et msg T (fuel + 1) n total b sl = some r ∧
        r.outcome = .timedOut ∧
        ∃ x ∈ r.sleeps, r.sleeps.sum ≤ T + x := by
  intro fuel
  induction fuel with
  | zero =>
    intro n total b sl hb ht hs harith
    norm_num at harith
    refine ⟨⟨.timedOut, n + 1, sl ++ [b]⟩, ?_, rfl, b, ?_, ?_⟩
    · rw [pollForEventGo, if_neg (by simp [hnf n]), if_pos harith]
    · exact List.mem_append_right _ (by simp)
    · rw [List.sum_append, hs]
      simp only [List.sum_cons, List.sum_nil, add_zero]
      linarith
  | succ fuel ih =>
    intro n total b sl hb ht hs harith
    by_cases hTb : T < total + b
    · refine ⟨⟨.timedOut, n + 1, sl ++ [b]⟩, ?_, rfl, b, ?_, ?_⟩
      · rw [pollForEventGo, if_neg (by simp [hnf n]), if_pos hTb]
      · exact List.mem_append_right _ (by simp)
      · rw [List.sum_append, hs]
        simp only [List.sum_cons, List.sum_nil, add_zero]
        linarith
    · push_neg at hTb
      have hkey : (b * 2) * ((2 : ℚ) ^ (fuel + 1) - 1) =
          b * (2 ^ (fuel + 1 + 1) - 1) - b := by ring
      have harith2 : T < (total + b) + (b * 2) * (2 ^ (fuel + 1) - 1) := by
        linarith
      obtain ⟨r, hgo, hout, hbnd⟩ := ih (n + 1) (total + b) (b * 2)
        (sl ++ [b]) (by linarith) hTb
        (by rw [List.sum_append, hs]; simp) harith2
      refine ⟨r, ?_, hout, hbnd⟩
      rw [pollForEventGo, if_neg (by simp [hnf n]),
        if_neg (not_lt.mpr hTb)]
      exact hgo

theorem waitForRunsGo_times_out (fin : Nat → Bool) (T : ℚ)
    (hnf : ∀ n, fin n = false) :
    ∀ (fuel n : Nat) (total interval : ℚ) (sl : List ℚ),
      0 < interval → sl.sum = total →
      (total ≤ T ∨ ∃ x ∈ sl, total ≤ T + x) →
      T < total + interval * (2 ^ fuel - 1) →
      ∃ r, waitForRunsGo fin T (fuel + 1) n total interval sl = some r ∧
        r.outcome = .timedOut ∧
        ∃ x ∈ r.sleeps, r.sleeps.sum ≤ T + x := by
  intro fuel
  induction fuel with
  | zero =>
    intro n total interval sl hi hs hinv harith
    norm_num at harith
    obtain ⟨x, hxm, hxb⟩ : ∃ x ∈ sl, total ≤ T + x := by
      rcases hinv with h | h
      · linarith
      · exact h
    refine ⟨⟨.timedOut, n + 1, sl⟩, ?_, rfl, x, hxm, ?_⟩
    · rw [waitForRunsGo, if_neg (by simp [hnf n]), if_pos harith]
    · rw [hs]
      exact hxb
  | succ fuel ih =>
    intro n total interval sl hi hs hinv harith
    by_cases hT2 : T < total
    · obtain ⟨x, hxm, hxb⟩ : ∃ x ∈ sl, total ≤ T + x := by
        rcases hinv with h | h
        · linarith
        · exact h
      refine ⟨⟨.timedOut, n + 1, sl⟩, ?_, rfl, x, hxm, ?_⟩
      · rw [waitForRunsGo, if_neg (by simp [hnf n]), if_pos hT2]
      · rw [hs]
        exact hxb
    · push_neg at hT2
      have hkey : (interval * 2) * ((2 : ℚ) ^ fuel - 1) =
          interval * (2 ^ (fuel + 1) - 1) - interval := by ring
      have harith2 : T < (total + interval) +
          (interval * 2) * (2 ^ fuel - 1) := by linarith
      have hinv2 : total + interval ≤ T ∨
          ∃ x ∈ sl ++ [interval], total + interval ≤ T + x := by
        by_cases h2 : total + interval ≤ T
        · exact Or.inl h2
        · exact Or.inr ⟨interval, List.mem_append_right _ (by simp),
            by linarith⟩
      obtain ⟨r, hgo, hout, hbnd⟩ := ih (n + 1) (total + interval)
        (interval * 2) (sl ++ [interval]) (by linarith)
        (by rw [List.sum_append, hs]; simp) hinv2 harith2
      refine ⟨r, ?_, hout, hbnd⟩
      rw [waitForRunsGo, if_neg (by simp [hnf n]), if_neg (not_lt.mpr hT2)]
      exact hgo

theorem pollForFinishedRunGo_times_out (found : Nat → Bool) (T : ℚ)
    (hnf : ∀ n, found n = false) :
    ∀ (fuel n : Nat) (total : ℚ) (sl : List ℚ),
      total ≤ T → sl.sum = total →
      T < total + mkRat 1 100 * ((fuel : ℚ) + 1) →
      ∃ r, pollForFinishedRunGo found T (fuel + 1) n total sl = some r ∧
        r.outcome = .timedOut ∧
        ∃ x ∈ r.sleeps, r.sleeps.sum ≤ T + x := by
  intro fuel
  induction fuel with
  | zero =>
    intro n total sl ht hs harith
    have hTc : T < total + mkRat 1 100 := by
      push_cast at harith
      linarith [show (mkRat 1 100 : ℚ) * (0 + 1) = mkRat 1 100 from by ring]
    refine ⟨⟨.timedOut, n + 1, sl ++ [mkRat 1 100]⟩, ?_, rfl, mkRat 1 100,
      List.mem_append_right _ (by simp), ?_⟩
    · rw [pollForFinishedRunGo, if_neg (by simp [hnf n]), if_pos hTc]
    · rw [List.sum_append, hs]
      simp only [List.sum_cons, List.sum_nil, add_zero]
      linarith
  | succ fuel ih =>
    intro n total sl ht hs harith
    by_cases hTc : T < total + mkRat 1 100
    · refine ⟨⟨.timedOut, n + 1, sl ++ [mkRat 1 100]⟩, ?_, rfl, mkRat 1 100,
        List.mem_append_right _ (by simp), ?_⟩
      · rw [pollForFinishedRunGo, if_neg (by simp [hnf n]), if_pos hTc]
      · rw [List.sum_append, hs]
        simp only [List.sum_cons, List.sum_nil, add_zero]
        linarith
    · push_neg at hTc
      have harith2 : T < (total + mkRat 1 100) +
          mkRat 1 100 * ((fuel : ℚ) + 1) := by
        push_cast at harith
        linarith [show (mkRat 1 100 : ℚ) * ((fuel : ℚ) + 1 + 1) =
          mkRat 1 100 + mkRat 1 100 * ((fuel : ℚ) + 1) from by ring]
      obtain ⟨r, hgo, hout, hbnd⟩ := ih (n + 1) (total + mkRat 1 100)
        (sl ++ [mkRat 1 100]) hTc
        (by rw [List.sum_append, hs]; simp) harith2
      refine ⟨r, ?_, hout, hbnd⟩
      rw [pollForFinishedRunGo, if_neg (by simp [hnf n]),
        if_neg (not_lt.mpr hTc)]
      exact hgo

theorem syncPollGo_times_out (p : Nat → JobDetails) (i T : ℚ)
    (fL cE : Bool) (hT : 0 < T) (hi : 0 < i)
    (hnf : ∀ n, classifyState (p n).status = .continuePoll) :
    ∀ (fuel n la ll : Nat) (st : Option String) (e : ℚ) (em : List String)
      (sl : List ℚ),
      sl.sum = e → (e ≤ T ∨ ∃ x ∈ sl, e ≤ T + x) →
      T < e + i * (fuel : ℚ) →
      ∃ r, syncPollGo p i (some T) fL cE true (fuel + 1) n la ll st e em sl =
          some r ∧
        r.outcome = .timedOut ∧
        ∃ x ∈ r.sleeps, r.sleeps.sum ≤ T + x := by
  intro fuel
  induction fuel with
  | zero =>
    intro n la ll st e em sl hs hinv harith
    norm_num at harith
    obtain ⟨x, hxm, hxb⟩ : ∃ x ∈ sl, e ≤ T + x := by
      rcases hinv with h | h
      · linarith
      · exact h
    refine ⟨syncFinish .timedOut st cE true n em sl, ?_, ?_, x, hxm, ?_⟩
    · rw [syncPollGo,
        if_pos (by simp [timeoutHit]; exact ⟨ne_of_gt hT, harith⟩)]
    · simp [syncFinish]
    · show sl.sum ≤ T + x
      rw [hs]
      exact hxb
  | succ fuel ih =>
    intro n la ll st e em sl hs hinv harith
    by_cases hTe : T < e
    · obtain ⟨x, hxm, hxb⟩ : ∃ x ∈ sl, e ≤ T + x := by
        rcases hinv with h | h
        · linarith
        · exact h
      refine ⟨syncFinish .timedOut st cE true n em sl, ?_, ?_, x, hxm, ?_⟩
      · rw [syncPollGo,
          if_pos (by simp [timeoutHit]; exact ⟨ne_of_gt hT, hTe⟩)]
      · simp [syncFinish]
      · show sl.sum ≤ T + x
        rw [hs]
        exact hxb
    · push_neg at hTe
      have harith2 : T < (e + i) + i * (fuel : ℚ) := by
        push_cast at harith
        linarith
      have hinv2 : e + i ≤ T ∨ ∃ x ∈ sl ++ [i], e + i ≤ T + x := by
        by_cases h2 : e + i ≤ T
        · exact Or.inl h2
        · exact Or.inr ⟨i, List.mem_append_right _ (by simp), by linarith⟩
      obtain ⟨r, hgo, hout, hbnd⟩ := ih (n + 1)
        (logStep fL (p n).attempts la ll).loggedAttempts
        (logStep fL (p n).attempts la ll).loggedLines (p n).status (e + i)
        (em ++ (logStep fL (p n).attempts la ll).emitted) (sl ++ [i])
        (by rw [List.sum_append, hs]; simp) hinv2 harith2
      refine ⟨r, ?_, hout, hbnd⟩
      rw [syncPollGo, if_neg (by simp [timeoutHit, hTe])]
      simp only [hnf n]
      exact hgo

/-- Claim C2: for every timeout `T > 0` and every status provider that never
reports a terminal state, each poll operation (`wait_for_runs_to_finish`,
`poll_for_finished_run`, `poll_for_event`, and `sync_and_poll` with
`poll_timeout = T` and a positive poll interval) terminates rather than
looping forever, signals the timeout outcome, and its total accumulated
sleep time does not exceed `T` plus one backoff interval. -/
theorem poll_operations_terminate_within_timeout (T : ℚ) (hT : 0 < T) :
    (∀ fin : Nat → Bool, (∀ n, fin n = false) →
      ∃ fuel r, wait_for_runs_to_finish fin T fuel = some r ∧
        r.outcome = .timedOut ∧ ∃ x ∈ r.sleeps, r.sleeps.sum ≤ T + x) ∧
    (∀ found : Nat → Bool, (∀ n, found n = false) →
      ∃ fuel r, poll_for_finished_run found T fuel = some r ∧
        r.outcome = .timedOut ∧ ∃ x ∈ r.sleeps, r.sleeps.sum ≤ T + x) ∧
    (∀ (logs : Nat → List LogRecord) (et : String) (msg : Option String),
      (∀ n, eventFound (logs n) et msg = false) →
      ∃ fuel r, poll_for_event logs et msg T fuel = some r ∧
        r.outcome = .timedOut ∧ ∃ x ∈ r.sleeps, r.sleeps.sum ≤ T + x) ∧
    (∀ (p : Nat → JobDetails) (i : ℚ) (fL cE : Bool), 0 < i →
      (∀ n, classifyState (p n).status = .continuePoll) →
      ∃ fuel r, sync_and_poll p i (some T) fL cE true fuel = some r ∧
        r.outcome = .timedOut ∧ r.sleeps.sum ≤ T + i) := by
  have hdiv10 : (mkRat 1 10 : ℚ) = 1 / 10 := by
    norm_num [Rat.mkRat_eq_div]
  have hdiv100 : (mkRat 1 100 : ℚ) = 1 / 100 := by
    norm_num [Rat.mkRat_eq_div]
  refine ⟨?_, ?_, ?_, ?_⟩
  · intro fin hnf
    obtain ⟨m, hm⟩ := exists_pow_gt (10 * T)
    have harith : T < 0 + mkRat 1 10 * (2 ^ (m + 1) - 1) := by
      rw [hdiv10]
      linarith
    obtain ⟨r, hgo, hout, hbnd⟩ := waitForRunsGo_times_out fin T hnf (m + 1)
      0 0 (mkRat 1 10) [] (by rw [hdiv10]; norm_num) rfl (Or.inl hT.le)
      harith
    exact ⟨m + 1 + 1, r, hgo, hout, hbnd⟩
  · intro found hnf
    obtain ⟨m, hm⟩ := exists_nat_gt (100 * T)
    have harith : T < 0 + mkRat 1 100 * ((m : ℚ) + 1) := by
      rw [hdiv100]
      linarith
    obtain ⟨r, hgo, hout, hbnd⟩ := pollForFinishedRunGo_times_out found T
      hnf m 0 0 [] hT.le rfl harith
    exact ⟨m + 1, r, hgo, hout, hbnd⟩
  · intro logs et msg hnf
    obtain ⟨m, hm⟩ := exists_pow_gt (100 * T)
    have harith : T < 0 + mkRat 1 100 * (2 ^ (m + 1) - 1) := by
      rw [hdiv100]
      linarith
    obtain ⟨r, hgo, hout, hbnd⟩ := pollForEventGo_times_out logs et msg T
      hnf m 0 0 (mkRat 1 100) [] (by rw [hdiv100]; norm_num) hT.le rfl
      harith
    exact ⟨m + 1, r, hgo, hout, hbnd⟩
  · intro p i fL cE hi hnf
    obtain ⟨m, hm⟩ := exists_nat_gt (T / i)
    have hmi : T < (m : ℚ) * i := (div_lt_iff hi).mp hm
    have harith : T < 0 + i * (m : ℚ) := by
      have := mul_comm (m : ℚ) i
      linarith
    obtain ⟨r, hgo, hout, hbnd⟩ := syncPollGo_times_out p i T fL cE hT hi
      hnf m 0 0 0 none 0 [] [] rfl (Or.inl hT.le) harith
    obtain ⟨k, hk⟩ := syncPollGo_sleeps_const p i (some T) fL cE true (m + 1)
      0 0 0 none 0 [] [] r hgo
    rw [List.nil_append] at hk
    obtain ⟨x, hxm, hxb⟩ := hbnd
    have hxe : x = i := List.eq_of_mem_replicate (hk ▸ hxm)
    exact ⟨m + 1, r, hgo, hout, by rw [← hxe]; exact hxb⟩

/-- Witness for C2: all four poll operations at `T = 1` with a provider that
is never terminal. -/
theorem poll_operations_terminate_within_timeout_witness :
    (∃ fuel r, wait_for_runs_to_finish (fun _ => false) 1 fuel = some r ∧
      r.outcome = .timedOut ∧ ∃ x ∈ r.sleeps, r.sleeps.sum ≤ 1 + x) ∧
    (∃ fuel r, poll_for_finished_run (fun _ => false) 1 fuel = some r ∧
      r.outcome = .timedOut ∧ ∃ x ∈ r.sleeps, r.sleeps.sum ≤ 1 + x) ∧
    (∃ fuel r, poll_for_event (fun _ => []) "E" none 1 fuel = some r ∧
      r.outcome = .timedOut ∧ ∃ x ∈ r.sleeps, r.sleeps.sum ≤ 1 + x) ∧
    (∃ fuel r, sync_and_poll (fun _ => ⟨some "running", []⟩) 1 (some 1) true
        true true fuel = some r ∧
      r.outcome = .timedOut ∧ r.sleeps.sum ≤ 1 + 1) := by
  obtain ⟨h1, h2, h3, h4⟩ := poll_operations_terminate_within_timeout 1
    (by norm_num)
  exact ⟨h1 _ (fun _ => rfl), h2 _ (fun _ => rfl),
    h3 _ "E" none (fun _ => rfl),
    h4 _ 1 true true (by norm_num) (fun _ => rfl)⟩

end DagsterPoll
